import Mathlib

/-
Verification development for the report-automation core pipeline
(src/app.py): money parsing, row classification against reference sets,
row ordering with highlight ranges, per-variant pipeline runs and their
error/publish behaviour.

Modelling conventions:
  - A cell is `Option String`: `none` models a missing value (pandas NaN);
    `some s` models the textual form of the value (the code converts cells
    with `str(...)` / `astype(str)` at every point our claims touch).
  - Floats are modelled as `Rat`; Python `float(...)` on text is modelled
    by `pyFloatParse?` (the integer mantissa/exponent parts) composed with
    `ratOfParts`. The special values inf/nan and digit underscores are
    modelled as parse failures, since the embedding uses exact rationals.
  - External collaborators (Google auth, the reviews spreadsheet, the
    publishing sink) are inputs/outputs of the run functions: a run takes
    the auth outcome and the fetched reference-list data, and returns the
    produced result together with the list of data matrices written to
    the sink, in order.
-/

namespace ReportAutomation

/-- A cell value: `none` is a missing value (NaN), `some s` its text form. -/
abbrev Cell := Option String

/-- Python `str(x)` on a cell: a missing value (NaN) prints as "nan". -/
def pyStr (c : Cell) : String :=
  match c with
  | none => "nan"
  | some s => s

/-- Trim whitespace from both ends of a character list (Python `str.strip`). -/
def trimChars (cs : List Char) : List Char :=
  ((cs.dropWhile Char.isWhitespace).reverse.dropWhile Char.isWhitespace).reverse

/-- Python `s.strip()`. -/
def pyTrim (s : String) : String :=
  String.mk (trimChars s.data)

/-- Python `s.replace(c, "")`: remove every occurrence of the character. -/
def removeChar (c : Char) (s : String) : String :=
  String.mk (s.data.filter (fun a => a != c))

/-- Value of a digit list, most significant first. -/
def digitsToNat (cs : List Char) : Nat :=
  cs.foldl (fun a c => a * 10 + (c.toNat - 48)) 0

/-- Parts of a parsed float literal: the value is
`mant / 10 ^ fracDigits * 10 ^ exp`. -/
structure FloatParts where
  mant : Int
  fracDigits : Nat
  exp : Int
deriving DecidableEq, Repr

/-- Exponent part of a float literal: optional sign then digits. -/
def parseExp? (r : List Char) : Option Int :=
  let p :=
    match r with
    | '+' :: t => ((1 : Int), t)
    | '-' :: t => ((-1 : Int), t)
    | t => ((1 : Int), t)
  let ed := p.2.takeWhile Char.isDigit
  let rest := p.2.dropWhile Char.isDigit
  if ed.isEmpty ∨ ¬ rest.isEmpty then none
  else some (p.1 * (digitsToNat ed : Int))

/-- Model of Python `float(s)` on text, returning the integer parts:
optional surrounding whitespace and sign, then `digits`, `digits.`,
`digits.digits` or `.digits`, then an optional exponent. -/
def pyFloatParse? (s : String) : Option FloatParts :=
  let cs := trimChars s.data
  let p :=
    match cs with
    | '+' :: r => ((1 : Int), r)
    | '-' :: r => ((-1 : Int), r)
    | r => ((1 : Int), r)
  let ip := p.2.takeWhile Char.isDigit
  let cs2 := p.2.dropWhile Char.isDigit
  let q :=
    match cs2 with
    | '.' :: r => (r.takeWhile Char.isDigit, r.dropWhile Char.isDigit)
    | r => (([] : List Char), r)
  if ip.isEmpty ∧ q.1.isEmpty then none
  else
    let m : Int := p.1 * ((digitsToNat ip : Int) * (10 : Int) ^ q.1.length + (digitsToNat q.1 : Int))
    match q.2 with
    | [] => some ⟨m, q.1.length, 0⟩
    | 'e' :: r => (parseExp? r).map (fun e => ⟨m, q.1.length, e⟩)
    | 'E' :: r => (parseExp? r).map (fun e => ⟨m, q.1.length, e⟩)
    | _ => none

/-- Rational value of parsed float parts. -/
def ratOfParts (p : FloatParts) : Rat :=
  (p.mant : Rat) / (10 : Rat) ^ p.fracDigits * (10 : Rat) ^ p.exp

/-- Model of Python `float(s)` as a rational. -/
def pyFloat? (s : String) : Option Rat :=
  (pyFloatParse? s).map ratOfParts

/-- The text remaining after `str(x).strip().replace("$", "").replace(",", "")`. -/
def cleanMoney (s : String) : String :=
  removeChar ',' (removeChar '$' (pyTrim s))

/-- Model of `money_to_float` (src/app.py:32): missing value gives 0.0;
otherwise strip whitespace and remove all `$` and `,`; empty remainder
gives 0.0; otherwise parse as float, 0.0 on failure. -/
def money_to_float (x : Cell) : Rat :=
  match x with
  | none => 0
  | some v =>
    let s := cleanMoney v
    if s = "" then 0
    else
      match pyFloat? s with
      | some q => q
      | none => 0

/-- Executable test for `money_to_float x > 0`: positivity of the parsed
value is positivity of its integer mantissa. Lemma `moneyPos_iff` below
proves this Boolean equal to the comparison the code performs. -/
def moneyPos (x : Cell) : Bool :=
  match x with
  | none => false
  | some v =>
    let s := cleanMoney v
    if s = "" then false
    else
      match pyFloatParse? s with
      | some p => decide (0 < p.mant)
      | none => false


/-- Worker for `dedupByKey`: drop every element whose key was already
seen, keeping the first occurrence of each key in iteration order. -/
def dedupAux (key : α → Cell) (seen : List Cell) : List α → List α
  | [] => []
  | x :: xs =>
    if key x ∈ seen then dedupAux key seen xs
    else x :: dedupAux key (key x :: seen) xs

/-- Model of `DataFrame.drop_duplicates(subset=[identifier], keep="first")`
(src/app.py:118, 284, 462): keep only the first occurrence of each key. -/
def dedupByKey (key : α → Cell) (l : List α) : List α :=
  dedupAux key [] l


/-- Tabular input from the external source: the ordered list of column
names actually present, and the rows, each aligned with `cols`. -/
structure Table where
  cols : List String
  rows : List (List Cell)

/-- Read a named column of a row (`row[name]`): `none` when absent. -/
def getCell (cols : List String) (r : List Cell) (name : String) : Cell :=
  match cols.findIdx? (fun c => c == name) with
  | some i => r.getD i none
  | none => none

/-- Overwrite a named column of a row (`df[name] = ...`). -/
def setCell (cols : List String) (r : List Cell) (name : String) (v : Cell) :
    List Cell :=
  match cols.findIdx? (fun c => c == name) with
  | some i => r.set i v
  | none => r

/-- The required columns absent from the input
(`[c for c in REQUIRED_COLS if c not in df.columns]`). -/
def missingCols (required cols : List String) : List String :=
  required.filter (fun c => !(cols.contains c))

/-- A fetched reference list as the code cleans it
(`{str(x).strip() for x in ... .col_values(i) if str(x).strip()}`). -/
def cleanVals (vs : List Cell) : List String :=
  (vs.map (fun x => pyTrim (pyStr x))).filter (fun s => s != "")

/-- Row→string output conversion `fillna("")`: missing cells print empty. -/
def fillRow (r : List Cell) : List String :=
  r.map (fun c => c.getD "")

/-- An RGB color with rational components, as sent to the sheet API. -/
structure RGB where
  red : Rat
  green : Rat
  blue : Rat

def yellowRGB : RGB := ⟨1, 1, 0⟩

def orangeRGB : RGB := ⟨1, 3 / 5, 0⟩

def darkRedRGB : RGB := ⟨3 / 5, 0, 0⟩

def whiteRGB : RGB := ⟨1, 1, 1⟩

/-- A highlight range: 1-based inclusive sheet rows, background color and
optional foreground (text) color. -/
structure Fmt where
  startRow : Nat
  endRow : Nat
  bg : RGB
  fg : Option RGB

/-- The (columns, ordered rows, highlight ranges) tuple handed to the
publishing sink. -/
structure PipelineResult where
  cols : List String
  rows : List (List String)
  fmts : List Fmt

/-- Outcome of one pipeline run: the produced result (`none` = the run
reported failure) and the data matrices written to the sink, in order.
Each matrix is header row :: data rows, as in
`worksheet.update([df.columns.tolist()] + df.values.tolist())`. -/
structure RunOut where
  result : Option PipelineResult
  published : List (List (List String))

/- ── Variant 1: Workflow Pros CRM (src/app.py:81) ───────────────── -/

def WREQUIRED_COLS : List String :=
  ["Invoice ID", "Payment Date", "Payment Method", "Payment Status",
   "Payment Amount", "Outstanding Balance", "Client", "Email",
   "Phone Number", "Total", "Created By"]

/-- Projection `df = df[REQUIRED_COLS]` (src/app.py:108). -/
def wProject (t : Table) : List (List Cell) :=
  t.rows.map (fun r => WREQUIRED_COLS.map (fun c => getCell t.cols r c))

/-- The payment-amount filter `money_to_float(row) > 0` (src/app.py:113),
computed by `moneyPos`; lemma `moneyPos_iff` equates the two. -/
def wKeep (r : List Cell) : Bool :=
  moneyPos (getCell WREQUIRED_COLS r "Payment Amount")

/-- Identifier normalization `astype(str).str.strip()` (src/app.py:114). -/
def wNormRow (r : List Cell) : List Cell :=
  setCell WREQUIRED_COLS r "Invoice ID"
    (some (pyTrim (pyStr (getCell WREQUIRED_COLS r "Invoice ID"))))

def wInvKey (r : List Cell) : Cell :=
  getCell WREQUIRED_COLS r "Invoice ID"

/-- Steps 2-3 of the generic pipeline: projection, payment filter,
identifier normalization, deduplication (src/app.py:108-118). -/
def wPrepare (t : Table) : List (List Cell) :=
  dedupByKey wInvKey (((wProject t).filter wKeep).map wNormRow)

/-- The four buckets of the generic variant (src/app.py:153). -/
inductive WB
  | yellow
  | orange
  | due
  | noDue
deriving DecidableEq

/-- The trimmed identifier used for matching:
`inv = str(row["Invoice ID"]).strip()` (src/app.py:156). -/
def wInv (r : List Cell) : String :=
  pyTrim (pyStr (getCell WREQUIRED_COLS r "Invoice ID"))

/-- The categorize branch of src/app.py:159-166: first reference set, then
second, then outstanding balance, else default. The balance comparison
`money_to_float(...) > 0` is computed by `moneyPos` (lemma `moneyPos_iff`). -/
def wBucket (alex eugene : List String) (r : List Cell) : WB :=
  if alex.contains (wInv r) then .yellow
  else if eugene.contains (wInv r) then .orange
  else if moneyPos (getCell WREQUIRED_COLS r "Outstanding Balance") then .due
  else .noDue

/-- The rows the categorize loop appends to one bucket list: the loop
appends each row to exactly one of the four lists in iteration order, so
each list is the filter of its branch condition. -/
def wRowsOf (alex eugene : List String) (l : List (List Cell)) (b : WB) :
    List (List Cell) :=
  l.filter (fun r => decide (wBucket alex eugene r = b))

/-- The ordering `regular_no_due + regular_due + yellow_rows + orange_rows`
(src/app.py:168). -/
def wOrdered (alex eugene : List String) (l : List (List Cell)) :
    List (List Cell) :=
  wRowsOf alex eugene l .noDue ++ wRowsOf alex eugene l .due
    ++ wRowsOf alex eugene l .yellow ++ wRowsOf alex eugene l .orange

/-- The highlight ranges of the generic variant (src/app.py:195-212):
yellow block then orange block, each only when its bucket is non-empty. -/
def wFormats (nNoDue nDue nYellow nOrange : Nat) : List Fmt :=
  let startYellow := nNoDue + nDue + 2
  let endYellow := startYellow + nYellow
  let startOrange := endYellow
  let endOrange := startOrange + nOrange
  (if nYellow ≠ 0 then [⟨startYellow, endYellow - 1, yellowRGB, none⟩] else [])
    ++ (if nOrange ≠ 0 then [⟨startOrange, endOrange - 1, orangeRGB, none⟩]
        else [])

/-- The whole generic run (src/app.py:81-224). Failure points in code
order: missing columns (105), auth (127), reviews sheet read (146); the
single publish (187) happens only after all of them. -/
def run_workflow_pros_crm (t : Table) (authOk : Bool)
    (refs : Option (List Cell × List Cell)) : RunOut :=
  if missingCols WREQUIRED_COLS t.cols ≠ [] then ⟨none, []⟩
  else
    let prepared := wPrepare t
    if !authOk then ⟨none, []⟩
    else
      match refs with
      | none => ⟨none, []⟩
      | some (av, ev) =>
        let alex := cleanVals av
        let eugene := cleanVals ev
        let outRows := (wOrdered alex eugene prepared).map fillRow
        let res : PipelineResult :=
          ⟨WREQUIRED_COLS, outRows,
            wFormats (wRowsOf alex eugene prepared .noDue).length
              (wRowsOf alex eugene prepared .due).length
              (wRowsOf alex eugene prepared .yellow).length
              (wRowsOf alex eugene prepared .orange).length⟩
        ⟨some res, [WREQUIRED_COLS :: outRows]⟩

/- ── Variant 2: USA (Housecall) (src/app.py:230) ────────────────── -/

def UNEEDED_COLS : List String :=
  ["Customer Name", "Invoice Number", "Invoice Status",
   "Assigned Employee Name", "Job Status", "Payment Amount"]

def UOUTPUT_COLS : List String :=
  ["Customer Name", "Invoice Number", "Invoice Status",
   "Clean Employee Name", "Job Status"]

/-- Employee-name cleaning (src/app.py:270-277): remove every bracket and
double-quote character, then strip surrounding whitespace. -/
def uCleanName (cols : List String) (r : List Cell) : String :=
  pyTrim (removeChar '"' (removeChar ']' (removeChar '['
    (pyStr (getCell cols r "Assigned Employee Name")))))

/-- The payment-amount filter of the USA variant (src/app.py:267),
computed by `moneyPos`; lemma `moneyPos_iff` equates it with
`money_to_float(row) > 0`. -/
def uKeep (cols : List String) (r : List Cell) : Bool :=
  moneyPos (getCell cols r "Payment Amount")

/-- Projection to the output columns, with the derived clean name
(src/app.py:270-279). -/
def uProjectRow (cols : List String) (r : List Cell) : List Cell :=
  UOUTPUT_COLS.map (fun c =>
    if c == "Clean Employee Name" then some (uCleanName cols r)
    else getCell cols r c)

/-- Identifier normalization `astype(str).str.strip()` (src/app.py:280). -/
def uNormRow (r : List Cell) : List Cell :=
  setCell UOUTPUT_COLS r "Invoice Number"
    (some (pyTrim (pyStr (getCell UOUTPUT_COLS r "Invoice Number"))))

def uInvKey (r : List Cell) : Cell :=
  getCell UOUTPUT_COLS r "Invoice Number"

/-- Filter, projection+cleaning, normalization, dedup (src/app.py:267-284). -/
def uPrepare (t : Table) : List (List Cell) :=
  dedupByKey uInvKey
    ((t.rows.filter (uKeep t.cols)).map (fun r => uNormRow (uProjectRow t.cols r)))

/-- The three buckets of the USA variant (src/app.py:319). -/
inductive UB
  | yellow
  | orange
  | regular
deriving DecidableEq

/-- The trimmed identifier used for matching (src/app.py:322). -/
def uInv (r : List Cell) : String :=
  pyTrim (pyStr (getCell UOUTPUT_COLS r "Invoice Number"))

/-- The categorize branch of src/app.py:324-329: first reference set, then
second, else the single default bucket. -/
def uBucket (alex eugene : List String) (r : List Cell) : UB :=
  if alex.contains (uInv r) then .yellow
  else if eugene.contains (uInv r) then .orange
  else .regular

/-- The rows the categorize loop appends to one bucket list (a filter of
that branch condition, as in the generic variant). -/
def uRowsOf (alex eugene : List String) (l : List (List Cell)) (b : UB) :
    List (List Cell) :=
  l.filter (fun r => decide (uBucket alex eugene r = b))

/-- The ordering `regular_rows + yellow_rows + orange_rows` (src/app.py:331). -/
def uOrdered (alex eugene : List String) (l : List (List Cell)) :
    List (List Cell) :=
  uRowsOf alex eugene l .regular ++ uRowsOf alex eugene l .yellow
    ++ uRowsOf alex eugene l .orange

/-- The highlight ranges of the USA variant (src/app.py:358-373). -/
def uFormats (nRegular nYellow nOrange : Nat) : List Fmt :=
  let startYellow := nRegular + 2
  let endYellow := startYellow + nYellow
  let startOrange := endYellow
  let endOrange := startOrange + nOrange
  (if nYellow ≠ 0 then [⟨startYellow, endYellow - 1, yellowRGB, none⟩] else [])
    ++ (if nOrange ≠ 0 then [⟨startOrange, endOrange - 1, orangeRGB, none⟩]
        else [])

/-- The whole USA run (src/app.py:230-387). Failure points in code order:
missing columns (261), auth (293), reviews sheet read (312); the single
publish (350) happens only after all of them. -/
def run_usa_housecall (t : Table) (authOk : Bool)
    (refs : Option (List Cell × List Cell)) : RunOut :=
  if missingCols UNEEDED_COLS t.cols ≠ [] then ⟨none, []⟩
  else
    let prepared := uPrepare t
    if !authOk then ⟨none, []⟩
    else
      match refs with
      | none => ⟨none, []⟩
      | some (av, ev) =>
        let alex := cleanVals av
        let eugene := cleanVals ev
        let outRows := (uOrdered alex eugene prepared).map fillRow
        let res : PipelineResult :=
          ⟨UOUTPUT_COLS, outRows,
            uFormats (uRowsOf alex eugene prepared .regular).length
              (uRowsOf alex eugene prepared .yellow).length
              (uRowsOf alex eugene prepared .orange).length⟩
        ⟨some res, [UOUTPUT_COLS :: outRows]⟩

/- ── Variant 3: Plumbing (src/app.py:413) ───────────────────────── -/

def PREQUIRED_COLS : List String :=
  ["Payment Type", "Amount", "Invoice Number", "Invoice Total",
   "Invoice Balance", "Payment Method", "Paid On",
   "Completion Date", "Assigned Technicians"]

def POUTPUT_COLS : List String :=
  ["Payment Type", "Amount", "Invoice Number", "Invoice Total",
   "Paid On", "Completion Date", "Assigned Technicians"]

def PFINAL_COLS : List String :=
  POUTPUT_COLS ++ ["Found On"]

/-- The configured review tabs and their column indices (src/app.py:406). -/
def PLUMBING_REVIEW_TABS : List (String × Nat) :=
  [("Alina", 1), ("Alex", 3), ("Eugene", 2)]

/-- Strip one trailing literal ".0" (the regex `\.0$`, src/app.py:456). -/
def stripDotZero (s : String) : String :=
  if s.data.reverse.take 2 = ['0', '.'] then String.mk s.data.dropLast.dropLast
  else s

/-- Projection `df = df[OUTPUT_COLS]` (src/app.py:449). -/
def pProjectRow (cols : List String) (r : List Cell) : List Cell :=
  POUTPUT_COLS.map (fun c => getCell cols r c)

/-- Invoice normalization `astype(str).str.strip()` then strip a trailing
".0" (src/app.py:452-457). -/
def pNormRow (r : List Cell) : List Cell :=
  setCell POUTPUT_COLS r "Invoice Number"
    (some (stripDotZero (pyTrim (pyStr (getCell POUTPUT_COLS r "Invoice Number")))))

/-- `df.fillna("")` (src/app.py:458). -/
def fillnaRow (r : List Cell) : List Cell :=
  r.map (fun c => some (c.getD ""))

def pInvKey (r : List Cell) : Cell :=
  getCell POUTPUT_COLS r "Invoice Number"

/-- One raw plumbing row after projection, invoice normalization and
fillna (src/app.py:449-458). -/
def pNormed (cols : List String) (r : List Cell) : List Cell :=
  fillnaRow (pNormRow (pProjectRow cols r))

/-- One cell of `astype(str).replace("NaT", "").replace("nan", "")`
(src/app.py:467-468): values exactly equal to "NaT" or "nan" become empty. -/
def stringifyCell (c : Cell) : String :=
  let t := pyStr c
  if t == "NaT" then "" else if t == "nan" then "" else t

def stringifyRow (r : List Cell) : List String :=
  r.map stringifyCell

/-- Step 2 of the plumbing pipeline (src/app.py:444-468): projection,
invoice normalization, fillna, dedup, string coercion. -/
def pPrepare (t : Table) : List (List String) :=
  (dedupByKey pInvKey (t.rows.map (pNormed t.cols))).map stringifyRow

/-- Outcome of fetching one review tab: its raw column values, a
WorksheetNotFound error, or any other read error. -/
inductive TabFetch
  | ok (vals : List Cell)
  | notFound
  | err

/-- Add an invoice to the map only when unseen (`if inv not in
invoice_to_tab`, src/app.py:512). -/
def insertNew (m : List (String × String)) (inv tab : String) :
    List (String × String) :=
  if (m.lookup inv).isSome then m else m ++ [(inv, tab)]

/-- Record one tab's invoices into the map (src/app.py:511-513). -/
def addTab (m : List (String × String)) (tab : String) (vals : List String) :
    List (String × String) :=
  vals.foldl (fun acc v => insertNew acc v tab) m

/-- The loop of src/app.py:503-516: a WorksheetNotFound tab is skipped; any
other tab read error escapes to the outer handler (518) and fails the
whole lookup. -/
def buildAux (m : List (String × String)) :
    List (String × TabFetch) → Option (List (String × String))
  | [] => some m
  | (tab, TabFetch.ok vals) :: rest => buildAux (addTab m tab (cleanVals vals)) rest
  | (_, TabFetch.notFound) :: rest => buildAux m rest
  | (_, TabFetch.err) :: _ => none

/-- The invoice→tab map (`invoice_to_tab`, src/app.py:502), or `none` when
the lookup failed as a whole. -/
def buildInvoiceToTab (tabs : List (String × TabFetch)) :
    Option (List (String × String)) :=
  buildAux [] tabs

/-- The first tab, in configured order, whose cleaned values contain the
identifier: the intended first-match specification for the map. -/
def firstTabOf (tabs : List (String × TabFetch)) (id : String) :
    Option String :=
  match tabs with
  | [] => none
  | (tab, TabFetch.ok vals) :: rest =>
    if (cleanVals vals).contains id then some tab else firstTabOf rest id
  | _ :: rest => firstTabOf rest id

/-- Read a named column of a stringified row. -/
def getStr (cols : List String) (r : List String) (name : String) : String :=
  match cols.findIdx? (fun c => c == name) with
  | some i => r.getD i ""
  | none => ""

/-- The trimmed identifier used by the plumbing reorder loop
(src/app.py:530). -/
def pInv (r : List String) : String :=
  pyTrim (getStr POUTPUT_COLS r "Invoice Number")

/-- The branch condition of src/app.py:531: non-empty identifier found in
the invoice→tab map. -/
def pIsDup (m : List (String × String)) (r : List String) : Bool :=
  pInv r != "" && (m.lookup (pInv r)).isSome

/-- The "Found On" value of a row: its matching tab, else empty
(src/app.py:533, 537). -/
def pFoundOn (m : List (String × String)) (r : List String) : String :=
  if pIsDup m r then (m.lookup (pInv r)).getD "" else ""

/-- A row with its "Found On" column appended. -/
def pExtend (m : List (String × String)) (r : List String) : List String :=
  r ++ [pFoundOn m r]

/-- `clean_rows` (src/app.py:527-538): rows not found in any tab, in
iteration order, each with an empty "Found On". -/
def pCleanRows (m : List (String × String)) (rows : List (List String)) :
    List (List String) :=
  (rows.filter (fun r => !(pIsDup m r))).map (pExtend m)

/-- `duplicate_rows` (src/app.py:527-538): rows found in a tab, in
iteration order, each with "Found On" set to the matching tab. -/
def pDupRows (m : List (String × String)) (rows : List (List String)) :
    List (List String) :=
  (rows.filter (pIsDup m)).map (pExtend m)

/-- `ordered_df` (src/app.py:542-551): clean rows then duplicate rows, with
the final string coercion pass. -/
def pFinalRows (m : List (String × String)) (rows : List (List String)) :
    List (List String) :=
  (pCleanRows m rows ++ pDupRows m rows).map
    (fun r => r.map (fun s => stringifyCell (some s)))

/-- The single dark-red/white highlight range (src/app.py:566-578). -/
def pFormats (nClean nDup : Nat) : List Fmt :=
  if nDup ≠ 0 then
    [⟨nClean + 2, nClean + 2 + nDup - 1, darkRedRGB, some whiteRGB⟩]
  else []

/-- The whole plumbing run (src/app.py:413-591). Failure points in code
order: missing columns (446), auth (478), reviews sheet read (518). Note
the first publish (493) happens before the reviews read. -/
def run_plumbing (t : Table) (authOk : Bool)
    (tabs : List (String × TabFetch)) : RunOut :=
  if missingCols PREQUIRED_COLS t.cols ≠ [] then ⟨none, []⟩
  else
    let prepared := pPrepare t
    if !authOk then ⟨none, []⟩
    else
      let pub1 := POUTPUT_COLS :: prepared
      match buildInvoiceToTab tabs with
      | none => ⟨none, [pub1]⟩
      | some m =>
        let final := pFinalRows m prepared
        let res : PipelineResult :=
          ⟨PFINAL_COLS, final,
            pFormats (pCleanRows m prepared).length (pDupRows m prepared).length⟩
        ⟨some res, [pub1, PFINAL_COLS :: final]⟩

/-- Two generic-variant rows: one matching the first reference set, one
the second. -/
def wRowY : List Cell :=
  [some "77", none, none, none, none, none, none, none, none, none, none]

def wRowO : List Cell :=
  [some "88", none, none, none, none, none, none, none, none, none, none]

def wLEx : List (List Cell) := [wRowY, wRowO]

/-- A one-row plumbing input table. -/
def pTableEx : Table :=
  ⟨PREQUIRED_COLS,
   [[some "Check", some "100", some "1002.0", some "100", some "0",
     some "Card", some "d1", some "d2", some "Bob"]]⟩

/-- A second plumbing row whose Invoice Number also normalizes to "1002". -/
def pRow2 : List Cell :=
  [some "Cash", some "50", some " 1002 ", some "50", some "0", some "Card",
   some "d3", some "d4", some "Ann"]

/- ── Claim theorems ─────────────────────────────────────────────── -/

theorem ratOfParts_pos (p : FloatParts) : 0 < ratOfParts p ↔ 0 < p.mant := by
  unfold ratOfParts
  rw [mul_pos_iff_of_pos_right (by positivity),
    div_pos_iff_of_pos_right (by positivity), Int.cast_pos]

theorem pyFloatParse_empty : pyFloatParse? "" = none := by decide

/-- Evaluation of `money_to_float` when the cleaned text parses. -/
theorem money_to_float_parse (v : String) (p : FloatParts)
    (h : pyFloatParse? (cleanMoney v) = some p) :
    money_to_float (some v) = ratOfParts p := by
  unfold money_to_float pyFloat?
  by_cases he : cleanMoney v = ""
  · rw [he, pyFloatParse_empty] at h; exact absurd h (by simp)
  · simp [he, h]

/-- Evaluation of `money_to_float` when the cleaned text fails to parse. -/
theorem money_to_float_fail (v : String)
    (h : pyFloatParse? (cleanMoney v) = none) :
    money_to_float (some v) = 0 := by
  unfold money_to_float pyFloat?
  by_cases he : cleanMoney v = "" <;> simp [he, h]

/-- The Boolean `moneyPos` computes exactly `money_to_float x > 0`,
the comparison the code performs in its payment-amount filters. -/
theorem moneyPos_iff (x : Cell) : moneyPos x = true ↔ 0 < money_to_float x := by
  cases x with
  | none => simp [moneyPos, money_to_float]
  | some v =>
    unfold moneyPos money_to_float pyFloat?
    by_cases he : cleanMoney v = ""
    · simp [he]
    · cases hp : pyFloatParse? (cleanMoney v) with
      | none => simp [he, hp]
      | some p => simp [he, hp, ratOfParts_pos]

theorem dedupAux_nil (key : α → Cell) (seen : List Cell) :
    dedupAux key seen [] = [] := rfl

theorem dedupAux_cons (key : α → Cell) (seen : List Cell) (x : α)
    (xs : List α) :
    dedupAux key seen (x :: xs)
      = if key x ∈ seen then dedupAux key seen xs
        else x :: dedupAux key (key x :: seen) xs := rfl

theorem dedupAux_sublist (key : α → Cell) (seen : List Cell) (l : List α) :
    List.Sublist (dedupAux key seen l) l := by
  induction l generalizing seen with
  | nil => exact List.Sublist.refl []
  | cons x xs ih =>
    rw [dedupAux_cons]
    by_cases h : key x ∈ seen
    · rw [if_pos h]
      exact (ih seen).cons x
    · rw [if_neg h]
      exact (ih (key x :: seen)).cons₂ x

theorem dedupByKey_sublist (key : α → Cell) (l : List α) :
    List.Sublist (dedupByKey key l) l :=
  dedupAux_sublist key [] l

theorem mem_dedupAux_key (key : α → Cell) (seen : List Cell) (l : List α)
    (a : α) (h : a ∈ dedupAux key seen l) : key a ∉ seen := by
  induction l generalizing seen with
  | nil => simp [dedupAux_nil] at h
  | cons x xs ih =>
    rw [dedupAux_cons] at h
    by_cases hx : key x ∈ seen
    · rw [if_pos hx] at h
      exact ih seen h
    · rw [if_neg hx] at h
      rcases List.mem_cons.mp h with rfl | h
      · exact hx
      · intro hs
        exact ih (key x :: seen) h (List.mem_cons_of_mem _ hs)

/-- Deduplication is idempotent. -/
theorem dedupAux_idem (key : α → Cell) (seen : List Cell) (l : List α) :
    dedupAux key seen (dedupAux key seen l) = dedupAux key seen l := by
  induction l generalizing seen with
  | nil => rfl
  | cons x xs ih =>
    rw [dedupAux_cons]
    by_cases h : key x ∈ seen
    · rw [if_pos h, ih seen]
    · rw [if_neg h, dedupAux_cons, if_neg h, ih (key x :: seen)]

theorem dedupByKey_idem (key : α → Cell) (l : List α) :
    dedupByKey key (dedupByKey key l) = dedupByKey key l :=
  dedupAux_idem key [] l

/-- Per key, deduplication keeps exactly the first occurrence. -/
theorem dedupAux_filter (key : α → Cell) (seen : List Cell) (l : List α)
    (k : Cell) :
    (dedupAux key seen l).filter (fun a => key a == k)
      = if k ∈ seen then [] else (l.filter (fun a => key a == k)).take 1 := by
  induction l generalizing seen with
  | nil => simp [dedupAux_nil]
  | cons x xs ih =>
    rw [dedupAux_cons]
    by_cases hx : key x ∈ seen
    · rw [if_pos hx, ih seen]
      by_cases hk : k ∈ seen
      · simp [hk]
      · have hkey : (key x == k) = false := by
          refine beq_eq_false_iff_ne.mpr ?_
          intro he
          exact hk (he ▸ hx)
        simp [hk, List.filter_cons, hkey]
    · rw [if_neg hx]
      by_cases hxk : key x = k
      · have hk : k ∉ seen := fun h => hx (hxk ▸ h)
        have hmem : k ∈ key x :: seen := by simp [hxk]
        rw [List.filter_cons, List.filter_cons]
        simp only [hxk, beq_self_eq_true, if_pos, ih (key x :: seen),
          if_pos hmem, if_neg hk]
        simp only [List.take, List.cons.injEq, true_and]
        simp only [List.filter_eq_nil_iff, beq_iff_eq]
        intro a ha he
        exact mem_dedupAux_key key (k :: seen) xs a ha (by simp [he])
      · have hkey : (key x == k) = false := beq_eq_false_iff_ne.mpr hxk
        have hiff : (k ∈ key x :: seen) ↔ (k ∈ seen) := by
          rw [List.mem_cons]
          exact or_iff_right (fun h => hxk h.symm)
        rw [List.filter_cons, ih (key x :: seen)]
        by_cases hk : k ∈ seen
        · rw [if_pos (hiff.mpr hk), if_pos hk]
          simp [hkey]
        · rw [if_neg (fun h => hk (hiff.mp h)), if_neg hk, List.filter_cons]
          simp [hkey]

/-- Per key, `dedupByKey` keeps exactly the first occurrence. -/
theorem dedupByKey_filter (key : α → Cell) (l : List α) (k : Cell) :
    (dedupByKey key l).filter (fun a => key a == k)
      = (l.filter (fun a => key a == k)).take 1 := by
  unfold dedupByKey
  rw [dedupAux_filter]
  simp

/-- Dropping a later element whose key already occurred earlier does not
change the deduplicated list. -/
theorem dedupAux_drop_seen (key : α → Cell) (y : α) (l2 l3 : List α) :
    ∀ seen : List Cell, key y ∈ seen →
      dedupAux key seen (l2 ++ y :: l3) = dedupAux key seen (l2 ++ l3) := by
  induction l2 with
  | nil =>
    intro seen hy
    simp only [List.nil_append]
    rw [dedupAux_cons, if_pos hy]
  | cons x l2 ih =>
    intro seen hy
    simp only [List.cons_append]
    rw [dedupAux_cons, dedupAux_cons]
    by_cases hx : key x ∈ seen
    · rw [if_pos hx, if_pos hx, ih seen hy]
    · rw [if_neg hx, if_neg hx, ih (key x :: seen) (List.mem_cons_of_mem _ hy)]

/-- Dropping a row whose key coincides with an earlier row's key does not
change the deduplicated list. -/
theorem dedupByKey_drop_dup (key : α → Cell) (l1 : List α) (x : α)
    (l2 : List α) (y : α) (l3 : List α) (hk : key x = key y) :
    dedupByKey key (l1 ++ x :: (l2 ++ y :: l3))
      = dedupByKey key (l1 ++ x :: (l2 ++ l3)) := by
  unfold dedupByKey
  generalize hs : ([] : List Cell) = seen
  clear hs
  induction l1 generalizing seen with
  | nil =>
    simp only [List.nil_append]
    rw [dedupAux_cons, dedupAux_cons]
    by_cases hx : key x ∈ seen
    · rw [if_pos hx, if_pos hx, dedupAux_drop_seen key y l2 l3 seen (hk ▸ hx)]
    · rw [if_neg hx, if_neg hx,
        dedupAux_drop_seen key y l2 l3 (key x :: seen) (by simp [hk.symm])]
  | cons z l1 ih =>
    simp only [List.cons_append]
    rw [dedupAux_cons, dedupAux_cons]
    by_cases hz : key z ∈ seen
    · rw [if_pos hz, if_pos hz, ih seen]
    · rw [if_neg hz, if_neg hz, ih (key z :: seen)]

/-- The first row bearing a given key survives deduplication. -/
theorem dedupAux_mem_first (key : α → Cell) (x : α) (l2 : List α) :
    ∀ (l1 : List α) (seen : List Cell), key x ∉ seen →
      (∀ p ∈ l1, key p ≠ key x) →
      x ∈ dedupAux key seen (l1 ++ x :: l2) := by
  intro l1
  induction l1 with
  | nil =>
    intro seen hs _
    simp only [List.nil_append]
    rw [dedupAux_cons, if_neg hs]
    exact List.mem_cons_self x _
  | cons p l1 ih =>
    intro seen hs hfirst
    simp only [List.cons_append]
    rw [dedupAux_cons]
    by_cases hp : key p ∈ seen
    · rw [if_pos hp]
      exact ih seen hs (fun q hq => hfirst q (List.mem_cons_of_mem _ hq))
    · rw [if_neg hp]
      refine List.mem_cons_of_mem _ ?_
      refine ih (key p :: seen) ?_ (fun q hq => hfirst q (List.mem_cons_of_mem _ hq))
      intro hmem
      rcases List.mem_cons.mp hmem with he | he
      · exact hfirst p (List.mem_cons_self p _) he.symm
      · exact hs he

/-- The first row bearing a given key survives `dedupByKey`. -/
theorem dedupByKey_mem_first (key : α → Cell) (l1 : List α) (x : α)
    (l2 : List α) (hfirst : ∀ p ∈ l1, key p ≠ key x) :
    x ∈ dedupByKey key (l1 ++ x :: l2) :=
  dedupAux_mem_first key x l2 l1 [] (by simp) hfirst


/-- C5: `parse_money` (`money_to_float`) is total — modelled as a function
it is defined on every cell — and returns 0.0 for null input, for input
whose cleaned text is empty (covers empty and symbol-only input), and for
input whose cleaned text fails the float parse (non-numeric input); on
well-formed currency text it returns the numeric value of the text after
stripping whitespace, `$` and `,`; in particular
`parse_money("$1,234.50") = 1234.50` and `parse_money("170.63") = 170.63`. -/
theorem C5_parse_money_contract :
    money_to_float none = 0
      ∧ (∀ s : String, cleanMoney s = "" → money_to_float (some s) = 0)
      ∧ (∀ s : String, pyFloatParse? (cleanMoney s) = none →
          money_to_float (some s) = 0)
      ∧ (∀ (s : String) (p : FloatParts), pyFloatParse? (cleanMoney s) = some p →
          money_to_float (some s) = ratOfParts p)
      ∧ money_to_float (some "$1,234.50") = 1234.50
      ∧ money_to_float (some "170.63") = 170.63 := by
  refine ⟨rfl, ?_, money_to_float_fail, money_to_float_parse, ?_, ?_⟩
  · intro s h
    unfold money_to_float
    simp [h]
  · rw [money_to_float_parse "$1,234.50" ⟨123450, 2, 0⟩ (by decide)]
    unfold ratOfParts
    norm_num
  · rw [money_to_float_parse "170.63" ⟨17063, 2, 0⟩ (by decide)]
    unfold ratOfParts
    norm_num

/-- Witness for C5 at concrete inputs: a symbol-only string, a non-numeric
string and a parsable one. -/
theorem C5_parse_money_contract_witness :
    money_to_float (some "$") = 0 ∧ money_to_float (some "abc") = 0
      ∧ money_to_float (some "$50") = ratOfParts ⟨50, 0, 0⟩ :=
  ⟨C5_parse_money_contract.2.1 "$" (by decide),
   C5_parse_money_contract.2.2.1 "abc" (by decide),
   C5_parse_money_contract.2.2.2.1 "$50" ⟨50, 0, 0⟩ (by decide)⟩

theorem cleanMoney_data (s : String) :
    (cleanMoney s).data
      = ((pyTrim s).data.filter (fun a => a != '$')).filter (fun a => a != ',') :=
  rfl

/-- C9: the money parser removes every `$` and `,` wherever they occur —
no character of the cleaned text is `$` or `,` — so
`parse_money("12,34") = 1234.0` and `parse_money("1,2,3") = 123.0` rather
than the failure default 0.0. -/
theorem C9_remove_all_dollar_comma :
    (∀ s : String,
        (cleanMoney s).data.filter (fun c => c == '$' || c == ',') = [])
      ∧ money_to_float (some "12,34") = 1234
      ∧ money_to_float (some "1,2,3") = 123 := by
  refine ⟨?_, ?_, ?_⟩
  · intro s
    rw [cleanMoney_data, List.filter_eq_nil_iff]
    intro a ha
    have h1 : (a != ',') = true := (List.mem_filter.mp ha).2
    have h2 : (a != '$') = true :=
      (List.mem_filter.mp (List.mem_filter.mp ha).1).2
    simp only [Bool.or_eq_true, beq_iff_eq]
    rintro (rfl | rfl)
    · exact absurd h2 (by decide)
    · exact absurd h1 (by decide)
  · rw [money_to_float_parse "12,34" ⟨1234, 0, 0⟩ (by decide)]
    unfold ratOfParts
    norm_num
  · rw [money_to_float_parse "1,2,3" ⟨123, 0, 0⟩ (by decide)]
    unfold ratOfParts
    norm_num

/-- C8: deduplication keeps, for every key, exactly the first occurrence
in iteration order (the filter of the result on a key is the first element
of the filter of the input on that key), and it is idempotent. `dedupByKey`
is the model of the `drop_duplicates(subset=[identifier], keep="first")`
calls of the generic (src/app.py:118) and plumbing (src/app.py:462)
pipelines, whose keys are `wInvKey` and `pInvKey`. -/
theorem C8_dedup_keep_first_idempotent (α : Type) (key : α → Cell)
    (l : List α) :
    (∀ k : Cell, (dedupByKey key l).filter (fun a => key a == k)
        = (l.filter (fun a => key a == k)).take 1)
      ∧ dedupByKey key (dedupByKey key l) = dedupByKey key l :=
  ⟨fun k => dedupByKey_filter key l k, dedupByKey_idem key l⟩

theorem lookup_append_of_some (m l2 : List (String × String)) (k t : String)
    (h : m.lookup k = some t) : (m ++ l2).lookup k = some t := by
  induction m with
  | nil => simp [List.lookup] at h
  | cons e m ih =>
    rw [List.cons_append]
    by_cases he : (k == e.1) = true
    · simp only [List.lookup, he, if_pos] at h ⊢
      exact h
    · simp only [List.lookup, he] at h ⊢
      exact ih h

theorem lookup_append_of_none (m l2 : List (String × String)) (k : String)
    (h : m.lookup k = none) : (m ++ l2).lookup k = l2.lookup k := by
  induction m with
  | nil => simp
  | cons e m ih =>
    rw [List.cons_append]
    by_cases he : (k == e.1) = true
    · simp only [List.lookup, he, if_pos] at h
      exact absurd h (by simp)
    · simp only [List.lookup, he] at h ⊢
      exact ih h

theorem lookup_insertNew (m : List (String × String)) (v tab k : String) :
    (insertNew m v tab).lookup k
      = match m.lookup k with
        | some t => some t
        | none => if k == v then some tab else none := by
  unfold insertNew
  by_cases hv : (m.lookup v).isSome = true
  · rw [if_pos hv]
    cases hk : m.lookup k with
    | some t => simp
    | none =>
      by_cases hvk : (k == v) = true
      · rw [← beq_iff_eq.mp hvk, hk] at hv
        simp at hv
      · simp [hvk]
  · rw [if_neg hv]
    cases hk : m.lookup k with
    | some t => rw [lookup_append_of_some m _ k t hk]
    | none =>
      rw [lookup_append_of_none m _ k hk]
      simp only [List.lookup]
      by_cases hvk : (k == v) = true
      · simp [hvk]
      · simp [hvk]

theorem lookup_addTab (vals : List String) (m : List (String × String))
    (tab k : String) :
    (addTab m tab vals).lookup k
      = match m.lookup k with
        | some t => some t
        | none => if vals.contains k then some tab else none := by
  induction vals generalizing m with
  | nil =>
    cases hk : m.lookup k with
    | some t => simp [addTab, hk]
    | none => simp [addTab, hk]
  | cons v vs ih =>
    rw [show addTab m tab (v :: vs) = addTab (insertNew m v tab) tab vs from rfl,
      ih (insertNew m v tab), lookup_insertNew]
    cases hk : m.lookup k with
    | some t => simp
    | none =>
      by_cases hvk : (k == v) = true
      · have hkv : k = v := beq_iff_eq.mp hvk
        simp [hvk, List.contains_cons, hkv]
      · have hkv : k ≠ v := fun h => hvk (beq_iff_eq.mpr h)
        simp [hvk, List.contains_cons, hkv]

theorem lookup_buildAux (tabs : List (String × TabFetch)) :
    ∀ (m0 m : List (String × String)), buildAux m0 tabs = some m →
      ∀ k, m.lookup k
        = match m0.lookup k with
          | some t => some t
          | none => firstTabOf tabs k := by
  induction tabs with
  | nil =>
    intro m0 m h k
    simp only [buildAux, Option.some.injEq] at h
    subst h
    cases hk : List.lookup k m0 with
    | some t => simp [firstTabOf, hk]
    | none => simp [firstTabOf, hk]
  | cons hd rest ih =>
    intro m0 m h k
    obtain ⟨tab, fetch⟩ := hd
    cases fetch with
    | ok vals =>
      have := ih (addTab m0 tab (cleanVals vals)) m h k
      rw [this, lookup_addTab]
      cases hk : m0.lookup k with
      | some t => simp
      | none =>
        by_cases hc : (cleanVals vals).contains k = true
        · have hm : k ∈ cleanVals vals := by simpa using hc
          simp [firstTabOf, hc, hm]
        · have hm : k ∉ cleanVals vals := by simpa using hc
          simp [firstTabOf, hc, hm]
    | notFound =>
      have := ih m0 m h k
      rw [this]
      cases hk : m0.lookup k with
      | some t => simp
      | none => simp [firstTabOf]
    | err => exact absurd h (by simp [buildAux])

/-- C2: first-match precedence in all three variants. Generic and USA: a
row whose trimmed identifier lies in the first reference set is assigned
the first set's bucket, also when it lies in the second set as well.
Plumbing: when the per-tab lookup succeeds, the invoice→tab map sends
every identifier to the first tab, in configured list order, whose cleaned
values contain it. -/
theorem C2_first_match_precedence :
    (∀ (alex eugene : List String) (r : List Cell),
        alex.contains (wInv r) = true → eugene.contains (wInv r) = true →
        wBucket alex eugene r = WB.yellow)
      ∧ (∀ (alex eugene : List String) (r : List Cell),
          alex.contains (uInv r) = true → eugene.contains (uInv r) = true →
          uBucket alex eugene r = UB.yellow)
      ∧ (∀ (tabs : List (String × TabFetch)) (m : List (String × String))
          (id : String), buildInvoiceToTab tabs = some m →
          m.lookup id = firstTabOf tabs id) := by
  refine ⟨?_, ?_, ?_⟩
  · intro alex eugene r ha _
    unfold wBucket
    rw [if_pos ha]
  · intro alex eugene r ha _
    unfold uBucket
    rw [if_pos ha]
  · intro tabs m id h
    rw [lookup_buildAux tabs [] m h id]
    simp [List.lookup]

/-- Witness for C2: an identifier present in both reference sets lands in
the first bucket, and the map of a two-tab lookup sends a shared invoice
to the first tab. -/
theorem C2_first_match_precedence_witness :
    wBucket ["77"] ["77"]
        [some "77", none, none, none, none, none, none, none, none, none, none]
      = WB.yellow
      ∧ uBucket ["88"] ["88"] [none, some "88", none, none, none] = UB.yellow
      ∧ [("5", "Alina")].lookup "5"
        = firstTabOf
            [("Alina", TabFetch.ok [some "5"]), ("Alex", TabFetch.ok [some "5"])]
            "5" :=
  ⟨C2_first_match_precedence.1 ["77"] ["77"] _ (by decide) (by decide),
   C2_first_match_precedence.2.1 ["88"] ["88"] _ (by decide) (by decide),
   C2_first_match_precedence.2.2
     [("Alina", TabFetch.ok [some "5"]), ("Alex", TabFetch.ok [some "5"])]
     [("5", "Alina")] "5" (by decide)⟩

theorem count_filter_eq {β : Type} [DecidableEq β] (p : β → Bool) (l : List β)
    (a : β) :
    (l.filter p).count a = if p a = true then l.count a else 0 := by
  induction l with
  | nil => simp
  | cons x xs ih =>
    rw [List.filter_cons]
    by_cases hp : p x = true
    · rw [if_pos hp, List.count_cons, ih, List.count_cons]
      by_cases hx : (x == a) = true
      · have hpa : p a = true := beq_iff_eq.mp hx ▸ hp
        simp [hpa, hx]
      · simp [hx]
    · rw [if_neg hp, ih]
      by_cases hx : (x == a) = true
      · have hpa : p a = false := by
          rw [← beq_iff_eq.mp hx]
          exact Bool.not_eq_true _ ▸ eq_false_of_ne_true hp
        simp [hpa, List.count_cons, hx]
      · simp [List.count_cons, hx]

theorem wRowsOf_mem (alex eugene : List String) (l : List (List Cell))
    (r : List Cell) (b : WB) :
    r ∈ wRowsOf alex eugene l b ↔ r ∈ l ∧ wBucket alex eugene r = b := by
  simp [wRowsOf, List.mem_filter]

theorem uRowsOf_mem (alex eugene : List String) (l : List (List Cell))
    (r : List Cell) (b : UB) :
    r ∈ uRowsOf alex eugene l b ↔ r ∈ l ∧ uBucket alex eugene r = b := by
  simp [uRowsOf, List.mem_filter]

theorem wOrdered_perm (alex eugene : List String) (l : List (List Cell)) :
    (wOrdered alex eugene l).Perm l := by
  rw [List.perm_iff_count]
  intro a
  simp only [wOrdered, List.count_append, wRowsOf, count_filter_eq]
  cases h : wBucket alex eugene a <;> simp [h]

theorem uOrdered_perm (alex eugene : List String) (l : List (List Cell)) :
    (uOrdered alex eugene l).Perm l := by
  rw [List.perm_iff_count]
  intro a
  simp only [uOrdered, List.count_append, uRowsOf, count_filter_eq]
  cases h : uBucket alex eugene a <;> simp [h]

theorem pClean_dup_perm (m : List (String × String))
    (rows : List (List String)) :
    (pCleanRows m rows ++ pDupRows m rows).Perm (rows.map (pExtend m)) := by
  unfold pCleanRows pDupRows
  rw [← List.map_append]
  apply List.Perm.map
  rw [List.perm_iff_count]
  intro a
  simp only [List.count_append, count_filter_eq]
  cases h : pIsDup m a <;> simp [h]

/-- C4: classification is an exhaustive and exclusive partition in all
three variants. Generic and USA: the ordered concatenation of the buckets
is a permutation of the classified input, and every input row lies in
exactly one bucket. Plumbing: the clean++duplicate concatenation is a
permutation of the input rows each extended with its "Found On" value,
and each row goes to exactly one of the two lists, by its branch
condition. -/
theorem C4_partition_exhaustive_exclusive :
    (∀ (alex eugene : List String) (l : List (List Cell)),
        (wOrdered alex eugene l).Perm l
          ∧ ∀ r ∈ l, ∃! b : WB, r ∈ wRowsOf alex eugene l b)
      ∧ (∀ (alex eugene : List String) (l : List (List Cell)),
          (uOrdered alex eugene l).Perm l
            ∧ ∀ r ∈ l, ∃! b : UB, r ∈ uRowsOf alex eugene l b)
      ∧ (∀ (m : List (String × String)) (rows : List (List String)),
          (pCleanRows m rows ++ pDupRows m rows).Perm (rows.map (pExtend m))
            ∧ ∀ r ∈ rows,
              (pIsDup m r = true ∧ pExtend m r ∈ pDupRows m rows)
                ∨ (pIsDup m r = false ∧ pExtend m r ∈ pCleanRows m rows)) := by
  refine ⟨?_, ?_, ?_⟩
  · intro alex eugene l
    refine ⟨wOrdered_perm alex eugene l, ?_⟩
    intro r hr
    refine ⟨wBucket alex eugene r, (wRowsOf_mem alex eugene l r _).mpr ⟨hr, rfl⟩, ?_⟩
    intro b hb
    exact ((wRowsOf_mem alex eugene l r b).mp hb).2.symm
  · intro alex eugene l
    refine ⟨uOrdered_perm alex eugene l, ?_⟩
    intro r hr
    refine ⟨uBucket alex eugene r, (uRowsOf_mem alex eugene l r _).mpr ⟨hr, rfl⟩, ?_⟩
    intro b hb
    exact ((uRowsOf_mem alex eugene l r b).mp hb).2.symm
  · intro m rows
    refine ⟨pClean_dup_perm m rows, ?_⟩
    intro r hr
    cases h : pIsDup m r with
    | true =>
      left
      refine ⟨rfl, ?_⟩
      unfold pDupRows
      exact List.mem_map_of_mem _ (List.mem_filter.mpr ⟨hr, h⟩)
    | false =>
      right
      refine ⟨rfl, ?_⟩
      unfold pCleanRows
      exact List.mem_map_of_mem _ (List.mem_filter.mpr ⟨hr, by simp [h]⟩)

/-- Witness for C4 at a concrete table: a single row lies in exactly one
generic bucket, one USA bucket, and goes to the plumbing duplicate list. -/
theorem C4_partition_exhaustive_exclusive_witness :
    (∃! b : WB,
      [some "77", none, none, none, none, none, none, none, none, none, none]
        ∈ wRowsOf ["77"] []
          [[some "77", none, none, none, none, none, none, none, none, none, none]] b)
      ∧ (∃! b : UB,
          [none, some "88", none, none, none]
            ∈ uRowsOf [] [] [[none, some "88", none, none, none]] b)
      ∧ ((pIsDup [("9", "Alina")] ["x", "1", "9", "2", "3", "4", "5"] = true
          ∧ pExtend [("9", "Alina")] ["x", "1", "9", "2", "3", "4", "5"]
            ∈ pDupRows [("9", "Alina")] [["x", "1", "9", "2", "3", "4", "5"]])
        ∨ (pIsDup [("9", "Alina")] ["x", "1", "9", "2", "3", "4", "5"] = false
          ∧ pExtend [("9", "Alina")] ["x", "1", "9", "2", "3", "4", "5"]
            ∈ pCleanRows [("9", "Alina")] [["x", "1", "9", "2", "3", "4", "5"]])) :=
  ⟨(C4_partition_exhaustive_exclusive.1 ["77"] [] _).2 _ (by decide),
   (C4_partition_exhaustive_exclusive.2.1 [] [] _).2 _ (by decide),
   (C4_partition_exhaustive_exclusive.2.2 [("9", "Alina")] _).2 _ (by decide)⟩

theorem wRowsOf_sublist_ordered (alex eugene : List String)
    (l : List (List Cell)) (b : WB) :
    List.Sublist (wRowsOf alex eugene l b) (wOrdered alex eugene l) := by
  unfold wOrdered
  simp only [List.append_assoc]
  cases b with
  | noDue => exact List.sublist_append_left _ _
  | due =>
    exact (List.sublist_append_left _ _).trans (List.sublist_append_right _ _)
  | yellow =>
    exact ((List.sublist_append_left _ _).trans
      (List.sublist_append_right _ _)).trans (List.sublist_append_right _ _)
  | orange =>
    exact ((List.sublist_append_right _ _).trans
      (List.sublist_append_right _ _)).trans (List.sublist_append_right _ _)

theorem uRowsOf_sublist_ordered (alex eugene : List String)
    (l : List (List Cell)) (b : UB) :
    List.Sublist (uRowsOf alex eugene l b) (uOrdered alex eugene l) := by
  unfold uOrdered
  simp only [List.append_assoc]
  cases b with
  | regular => exact List.sublist_append_left _ _
  | yellow =>
    exact (List.sublist_append_left _ _).trans (List.sublist_append_right _ _)
  | orange =>
    exact (List.sublist_append_right _ _).trans (List.sublist_append_right _ _)

/-- C10: classification and ordering are stable in every variant. Each
bucket is an order-preserving subsequence both of the classified input and
of the final ordered row sequence; in the plumbing variant, of the input
rows extended with their "Found On" value and of the clean++duplicate
concatenation. Every step is a pure function of the input rows and the
fetched reference data, so the pipelines are deterministic by
construction. -/
theorem C10_stable_ordering :
    (∀ (alex eugene : List String) (l : List (List Cell)) (b : WB),
        List.Sublist (wRowsOf alex eugene l b) l
          ∧ List.Sublist (wRowsOf alex eugene l b) (wOrdered alex eugene l))
      ∧ (∀ (alex eugene : List String) (l : List (List Cell)) (b : UB),
          List.Sublist (uRowsOf alex eugene l b) l
            ∧ List.Sublist (uRowsOf alex eugene l b) (uOrdered alex eugene l))
      ∧ (∀ (m : List (String × String)) (rows : List (List String)),
          List.Sublist (pCleanRows m rows) (rows.map (pExtend m))
            ∧ List.Sublist (pDupRows m rows) (rows.map (pExtend m))
            ∧ List.Sublist (pCleanRows m rows)
                (pCleanRows m rows ++ pDupRows m rows)
            ∧ List.Sublist (pDupRows m rows)
                (pCleanRows m rows ++ pDupRows m rows)) := by
  refine ⟨?_, ?_, ?_⟩
  · intro alex eugene l b
    exact ⟨List.filter_sublist l, wRowsOf_sublist_ordered alex eugene l b⟩
  · intro alex eugene l b
    exact ⟨List.filter_sublist l, uRowsOf_sublist_ordered alex eugene l b⟩
  · intro m rows
    refine ⟨?_, ?_, List.sublist_append_left _ _, List.sublist_append_right _ _⟩
    · exact (List.filter_sublist rows).map (pExtend m)
    · exact (List.filter_sublist rows).map (pExtend m)

theorem getD_four_third (A B C D : List (List Cell)) (j : Nat)
    (h1 : A.length + B.length ≤ j)
    (h2 : j < A.length + B.length + C.length) :
    (A ++ B ++ C ++ D).getD j [] = C.getD (j - A.length - B.length) [] := by
  rw [List.append_assoc, List.append_assoc,
    List.getD_append_right A _ _ j (by omega),
    List.getD_append_right B _ _ _ (by omega),
    List.getD_append C D _ _ (by omega)]

theorem getD_four_fourth (A B C D : List (List Cell)) (j : Nat)
    (h1 : A.length + B.length + C.length ≤ j) :
    (A ++ B ++ C ++ D).getD j []
      = D.getD (j - A.length - B.length - C.length) [] := by
  rw [List.append_assoc, List.append_assoc,
    List.getD_append_right A _ _ j (by omega),
    List.getD_append_right B _ _ _ (by omega),
    List.getD_append_right C D _ _ (by omega)]

theorem wFormats_eq (nn nd ny no : Nat) :
    wFormats nn nd ny no
      = (if ny ≠ 0 then [⟨nn + nd + 2, nn + nd + ny + 1, yellowRGB, none⟩]
         else [])
        ++ (if no ≠ 0 then
              [⟨nn + nd + ny + 2, nn + nd + ny + no + 1, orangeRGB, none⟩]
            else []) := by
  by_cases hy : ny = 0 <;> by_cases ho : no = 0 <;>
    simp [wFormats, hy, ho, Fmt.mk.injEq] <;> omega

theorem pFormats_eq (nc ndup : Nat) :
    pFormats nc ndup
      = (if ndup ≠ 0 then
           [⟨nc + 2, nc + ndup + 1, darkRedRGB, some whiteRGB⟩]
         else []) := by
  by_cases hd : ndup = 0
  · simp [pFormats, hd]
  · simp [pFormats, hd, Fmt.mk.injEq]
    omega

/-- C3: the highlight ranges. Generic variant: with `nn, nd, ny, no` the
bucket sizes, the format list is exactly the yellow range
`[nn+nd+2, nn+nd+ny+1]` (when the yellow bucket is non-empty) followed by
the orange range `[nn+nd+ny+2, nn+nd+ny+no+1]` (when non-empty): 1-based
inclusive rows with start = header(1) + 1 + preceding rows and
end = start + size - 1, empty buckets contributing nothing, listed in
bucket priority order, contiguous and non-overlapping; and position j of
the final ordered sequence (sheet row j+2) inside a range holds exactly
that bucket's rows, in order. Plumbing variant: likewise for the single
dark-red range `[nc+2, nc+ndup+1]` over the clean++duplicate sequence. -/
theorem C3_highlight_ranges :
    (∀ (alex eugene : List String) (l A B C D : List (List Cell)),
        A = wRowsOf alex eugene l WB.noDue →
        B = wRowsOf alex eugene l WB.due →
        C = wRowsOf alex eugene l WB.yellow →
        D = wRowsOf alex eugene l WB.orange →
          wFormats A.length B.length C.length D.length
            = (if C.length ≠ 0 then
                 [⟨A.length + B.length + 2, A.length + B.length + C.length + 1,
                   yellowRGB, none⟩]
               else [])
              ++ (if D.length ≠ 0 then
                    [⟨A.length + B.length + C.length + 2,
                      A.length + B.length + C.length + D.length + 1,
                      orangeRGB, none⟩]
                  else [])
            ∧ (∀ j, A.length + B.length ≤ j →
                j < A.length + B.length + C.length →
                (wOrdered alex eugene l).getD j []
                  = C.getD (j - A.length - B.length) [])
            ∧ (∀ j, A.length + B.length + C.length ≤ j →
                (wOrdered alex eugene l).getD j []
                  = D.getD (j - A.length - B.length - C.length) []))
      ∧ (∀ (m : List (String × String)) (rows C D : List (List String)),
          C = pCleanRows m rows →
          D = pDupRows m rows →
            pFormats C.length D.length
              = (if D.length ≠ 0 then
                   [⟨C.length + 2, C.length + D.length + 1, darkRedRGB,
                     some whiteRGB⟩]
                 else [])
              ∧ (∀ j, C.length ≤ j →
                  (C ++ D).getD j [] = D.getD (j - C.length) [])) := by
  constructor
  · intro alex eugene l A B C D hA hB hC hD
    refine ⟨wFormats_eq A.length B.length C.length D.length, ?_, ?_⟩
    · intro j h1 h2
      have : wOrdered alex eugene l = A ++ B ++ C ++ D := by
        rw [hA, hB, hC, hD]; rfl
      rw [this]
      exact getD_four_third A B C D j h1 h2
    · intro j h1
      have : wOrdered alex eugene l = A ++ B ++ C ++ D := by
        rw [hA, hB, hC, hD]; rfl
      rw [this]
      exact getD_four_fourth A B C D j h1
  · intro m rows C D hC hD
    refine ⟨pFormats_eq C.length D.length, ?_⟩
    intro j h1
    rw [List.getD_append_right C D _ j h1]


/-- Witness for C3: a two-row input with one yellow and one orange row
yields the ranges [2,2] and [3,3]; position 0 of the ordered output holds
the yellow bucket's row; the plumbing duplicate block starts right after
the clean block. -/
theorem C3_highlight_ranges_witness :
    wFormats (wRowsOf ["77"] ["88"] wLEx WB.noDue).length
        (wRowsOf ["77"] ["88"] wLEx WB.due).length
        (wRowsOf ["77"] ["88"] wLEx WB.yellow).length
        (wRowsOf ["77"] ["88"] wLEx WB.orange).length
      = [⟨2, 2, yellowRGB, none⟩, ⟨3, 3, orangeRGB, none⟩]
      ∧ (wOrdered ["77"] ["88"] wLEx).getD 0 []
        = (wRowsOf ["77"] ["88"] wLEx WB.yellow).getD 0 []
      ∧ (pCleanRows [("9", "A")] [["x", "1", "9", "2", "3", "4", "5"]]
            ++ pDupRows [("9", "A")] [["x", "1", "9", "2", "3", "4", "5"]]).getD 0 []
        = (pDupRows [("9", "A")] [["x", "1", "9", "2", "3", "4", "5"]]).getD 0 [] := by
  have h := C3_highlight_ranges.1 ["77"] ["88"] wLEx _ _ _ _ rfl rfl rfl rfl
  have hp := C3_highlight_ranges.2 [("9", "A")]
    [["x", "1", "9", "2", "3", "4", "5"]] _ _ rfl rfl
  refine ⟨?_, ?_, ?_⟩
  · rw [h.1]
    rfl
  · exact h.2.1 0 (by decide) (by decide)
  · exact hp.2 0 (by decide)

theorem run_workflow_result_none_iff (t : Table) (authOk : Bool)
    (refs : Option (List Cell × List Cell)) :
    (run_workflow_pros_crm t authOk refs).result = none
      ↔ (run_workflow_pros_crm t authOk refs).published = [] := by
  unfold run_workflow_pros_crm
  by_cases hm : missingCols WREQUIRED_COLS t.cols ≠ []
  · simp [hm]
  · rw [if_neg hm]
    cases authOk with
    | false => simp
    | true =>
      cases refs with
      | none => simp
      | some pr =>
        obtain ⟨av, ev⟩ := pr
        simp

theorem run_usa_result_none_iff (t : Table) (authOk : Bool)
    (refs : Option (List Cell × List Cell)) :
    (run_usa_housecall t authOk refs).result = none
      ↔ (run_usa_housecall t authOk refs).published = [] := by
  unfold run_usa_housecall
  by_cases hm : missingCols UNEEDED_COLS t.cols ≠ []
  · simp [hm]
  · rw [if_neg hm]
    cases authOk with
    | false => simp
    | true =>
      cases refs with
      | none => simp
      | some pr =>
        obtain ⟨av, ev⟩ := pr
        simp

theorem run_plumbing_publish_modes (t : Table) (authOk : Bool)
    (tabs : List (String × TabFetch)) :
    ((missingCols PREQUIRED_COLS t.cols ≠ [] ∨ authOk = false) →
        (run_plumbing t authOk tabs).published = []
          ∧ (run_plumbing t authOk tabs).result = none)
      ∧ (missingCols PREQUIRED_COLS t.cols = [] → authOk = true →
          buildInvoiceToTab tabs = none →
          (run_plumbing t authOk tabs).published = [POUTPUT_COLS :: pPrepare t]
            ∧ (run_plumbing t authOk tabs).result = none)
      ∧ (∀ m : List (String × String),
          missingCols PREQUIRED_COLS t.cols = [] → authOk = true →
          buildInvoiceToTab tabs = some m →
          (run_plumbing t authOk tabs).published
              = [POUTPUT_COLS :: pPrepare t,
                 PFINAL_COLS :: pFinalRows m (pPrepare t)]
            ∧ (run_plumbing t authOk tabs).result
              = some ⟨PFINAL_COLS, pFinalRows m (pPrepare t),
                  pFormats (pCleanRows m (pPrepare t)).length
                    (pDupRows m (pPrepare t)).length⟩) := by
  refine ⟨?_, ?_, ?_⟩
  · intro h
    unfold run_plumbing
    by_cases hm : missingCols PREQUIRED_COLS t.cols ≠ []
    · simp [hm]
    · rw [if_neg hm]
      rcases h with h | h
      · exact absurd h hm
      · subst h
        simp
  · intro hm ha hb
    subst ha
    unfold run_plumbing
    rw [if_neg (by simp [hm])]
    simp [hb]
  · intro m hm ha hb
    subst ha
    unfold run_plumbing
    rw [if_neg (by simp [hm])]
    simp [hb]

/-- C1, amended: the generic and USA variants indeed publish nothing on
any failure and publish exactly when a complete result is produced. The
plumbing variant however uploads the deduplicated data before reading the
reference lists, so per failure mode: on missing columns or an
authentication failure nothing is published and the run fails; on a
reference-list read failure the run fails with exactly the initial data
matrix already published; a successful run publishes the initial matrix
and then the final ordered matrix, with the assembled PipelineResult. -/
theorem C1_amended_no_partial_success :
    (∀ (t : Table) (authOk : Bool) (refs : Option (List Cell × List Cell)),
        (run_workflow_pros_crm t authOk refs).result = none
          ↔ (run_workflow_pros_crm t authOk refs).published = [])
      ∧ (∀ (t : Table) (authOk : Bool) (refs : Option (List Cell × List Cell)),
          (run_usa_housecall t authOk refs).result = none
            ↔ (run_usa_housecall t authOk refs).published = [])
      ∧ (∀ (t : Table) (authOk : Bool) (tabs : List (String × TabFetch)),
          ((missingCols PREQUIRED_COLS t.cols ≠ [] ∨ authOk = false) →
              (run_plumbing t authOk tabs).published = []
                ∧ (run_plumbing t authOk tabs).result = none)
            ∧ (missingCols PREQUIRED_COLS t.cols = [] → authOk = true →
                buildInvoiceToTab tabs = none →
                (run_plumbing t authOk tabs).published
                    = [POUTPUT_COLS :: pPrepare t]
                  ∧ (run_plumbing t authOk tabs).result = none)
            ∧ (∀ m : List (String × String),
                missingCols PREQUIRED_COLS t.cols = [] → authOk = true →
                buildInvoiceToTab tabs = some m →
                (run_plumbing t authOk tabs).published
                    = [POUTPUT_COLS :: pPrepare t,
                       PFINAL_COLS :: pFinalRows m (pPrepare t)]
                  ∧ (run_plumbing t authOk tabs).result
                    = some ⟨PFINAL_COLS, pFinalRows m (pPrepare t),
                        pFormats (pCleanRows m (pPrepare t)).length
                          (pDupRows m (pPrepare t)).length⟩)) :=
  ⟨run_workflow_result_none_iff, run_usa_result_none_iff,
   run_plumbing_publish_modes⟩


/-- Counterexample to C1 as stated: in the plumbing run, a reference-list
read failure makes the run report failure, yet the data matrix has
already been published to the sink. -/
theorem C1_counterexample_partial_publish :
    (run_plumbing pTableEx true
        [("Alina", TabFetch.err), ("Alex", TabFetch.notFound),
         ("Eugene", TabFetch.notFound)]).result = none
      ∧ (run_plumbing pTableEx true
          [("Alina", TabFetch.err), ("Alex", TabFetch.notFound),
           ("Eugene", TabFetch.notFound)]).published ≠ [] :=
  ⟨rfl, by decide⟩

/-- Witness for C1 (amended) at concrete runs: an auth failure publishes
nothing, a reference-read failure leaves exactly the initial matrix
published, and a successful run publishes the initial matrix then the
final ordered one with the assembled result. -/
theorem C1_amended_no_partial_success_witness :
    ((run_plumbing pTableEx false []).published = []
        ∧ (run_plumbing pTableEx false []).result = none)
      ∧ ((run_plumbing pTableEx true [("Alina", TabFetch.err)]).published
            = [POUTPUT_COLS :: pPrepare pTableEx]
          ∧ (run_plumbing pTableEx true [("Alina", TabFetch.err)]).result
            = none)
      ∧ ((run_plumbing pTableEx true
              [("Alina", TabFetch.ok [some "1002"])]).published
            = [POUTPUT_COLS :: pPrepare pTableEx,
               PFINAL_COLS :: pFinalRows [("1002", "Alina")] (pPrepare pTableEx)]
          ∧ (run_plumbing pTableEx true
              [("Alina", TabFetch.ok [some "1002"])]).result
            = some ⟨PFINAL_COLS,
                pFinalRows [("1002", "Alina")] (pPrepare pTableEx),
                pFormats
                  (pCleanRows [("1002", "Alina")] (pPrepare pTableEx)).length
                  (pDupRows [("1002", "Alina")] (pPrepare pTableEx)).length⟩) :=
  ⟨(C1_amended_no_partial_success.2.2 pTableEx false []).1 (Or.inr rfl),
   (C1_amended_no_partial_success.2.2 pTableEx true
      [("Alina", TabFetch.err)]).2.1 rfl rfl rfl,
   (C1_amended_no_partial_success.2.2 pTableEx true
      [("Alina", TabFetch.ok [some "1002"])]).2.2
     [("1002", "Alina")] rfl rfl (by decide)⟩

theorem buildAux_notFound (post : List (String × TabFetch)) (name : String) :
    ∀ (pre : List (String × TabFetch)) (m0 : List (String × String)),
      buildAux m0 (pre ++ (name, TabFetch.notFound) :: post)
        = buildAux m0 (pre ++ post) := by
  intro pre
  induction pre with
  | nil => intro m0; rfl
  | cons hd rest ih =>
    intro m0
    obtain ⟨tab, fetch⟩ := hd
    cases fetch with
    | ok vals =>
      simp only [List.cons_append, buildAux]
      exact ih _
    | notFound =>
      simp only [List.cons_append, buildAux]
      exact ih m0
    | err => rfl

theorem buildAux_err (post : List (String × TabFetch)) (name : String) :
    ∀ (pre : List (String × TabFetch)) (m0 : List (String × String)),
      buildAux m0 (pre ++ (name, TabFetch.err) :: post) = none := by
  intro pre
  induction pre with
  | nil => intro m0; rfl
  | cons hd rest ih =>
    intro m0
    obtain ⟨tab, fetch⟩ := hd
    cases fetch with
    | ok vals =>
      simp only [List.cons_append, buildAux]
      exact ih _
    | notFound =>
      simp only [List.cons_append, buildAux]
      exact ih m0
    | err => rfl

/-- C7, amended: a reference-list read failure is fatal for the generic
and USA variants. In the plumbing per-tab lookup, a tab that does not
exist (WorksheetNotFound) is skipped and the run proceeds exactly as if
that tab were absent from the configured list; but any other read failure
of a tab escapes to the outer handler and fails the whole run. -/
theorem C7_amended_reference_failures :
    (∀ (t : Table) (authOk : Bool),
        (run_workflow_pros_crm t authOk none).result = none)
      ∧ (∀ (t : Table) (authOk : Bool),
          (run_usa_housecall t authOk none).result = none)
      ∧ (∀ (t : Table) (authOk : Bool) (name : String)
          (pre post : List (String × TabFetch)),
          run_plumbing t authOk (pre ++ (name, TabFetch.notFound) :: post)
            = run_plumbing t authOk (pre ++ post))
      ∧ (∀ (t : Table) (authOk : Bool) (name : String)
          (pre post : List (String × TabFetch)),
          (run_plumbing t authOk
              (pre ++ (name, TabFetch.err) :: post)).result = none) := by
  refine ⟨?_, ?_, ?_, ?_⟩
  · intro t authOk
    unfold run_workflow_pros_crm
    by_cases hm : missingCols WREQUIRED_COLS t.cols ≠ []
    · simp [hm]
    · rw [if_neg hm]
      cases authOk <;> simp
  · intro t authOk
    unfold run_usa_housecall
    by_cases hm : missingCols UNEEDED_COLS t.cols ≠ []
    · simp [hm]
    · rw [if_neg hm]
      cases authOk <;> simp
  · intro t authOk name pre post
    unfold run_plumbing
    rw [show buildInvoiceToTab (pre ++ (name, TabFetch.notFound) :: post)
        = buildInvoiceToTab (pre ++ post) from buildAux_notFound post name pre []]
  · intro t authOk name pre post
    unfold run_plumbing
    rw [show buildInvoiceToTab (pre ++ (name, TabFetch.err) :: post)
        = none from buildAux_err post name pre []]
    by_cases hm : missingCols PREQUIRED_COLS t.cols ≠ []
    · simp [hm]
    · rw [if_neg hm]
      cases authOk <;> simp

/-- Counterexample to C7 as stated: a tab read failure that is not
WorksheetNotFound is not skipped — the same run with the failing tab
removed succeeds, while the run with it fails as a whole. -/
theorem C7_counterexample_err_tab_fatal :
    (run_plumbing pTableEx true
        [("Alina", TabFetch.err), ("Alex", TabFetch.ok [some "1002"])]).result
      = none
      ∧ (run_plumbing pTableEx true
          [("Alex", TabFetch.ok [some "1002"])]).result.isSome = true :=
  ⟨rfl, rfl⟩

/-- C6: in the plumbing variant, identifier normalization (whitespace trim
then stripping a trailing ".0") happens before deduplication, so a later
row whose normalized Invoice Number equals an earlier row's is dropped
and the run's prepared rows are unchanged by its removal; the first
occurrence survives when no earlier row shares its key; and a surviving
row whose identifier is found in the lookup map goes to the duplicate
list — placed after every clean row in the final sequence — with its
"Found On" column set to the matching tab's name. -/
theorem C6_plumbing_strip_dedup_foundon :
    (∀ (cols : List String) (pre : List (List Cell)) (r1 : List Cell)
        (mid : List (List Cell)) (r2 : List Cell) (post : List (List Cell)),
        pInvKey (pNormed cols r1) = pInvKey (pNormed cols r2) →
        pPrepare ⟨cols, pre ++ r1 :: (mid ++ r2 :: post)⟩
          = pPrepare ⟨cols, pre ++ r1 :: (mid ++ post)⟩)
      ∧ (∀ (cols : List String) (pre : List (List Cell)) (r1 : List Cell)
          (rest : List (List Cell)),
          (∀ p ∈ pre, pInvKey (pNormed cols p) ≠ pInvKey (pNormed cols r1)) →
          stringifyRow (pNormed cols r1) ∈ pPrepare ⟨cols, pre ++ r1 :: rest⟩)
      ∧ (∀ (m : List (String × String)) (rows : List (List String))
          (r : List String) (tab : String),
          r ∈ rows → pInv r ≠ "" → m.lookup (pInv r) = some tab →
            pExtend m r = r ++ [tab]
              ∧ pExtend m r ∈ pDupRows m rows
              ∧ pFinalRows m rows
                = (pCleanRows m rows).map
                    (fun q => q.map (fun s => stringifyCell (some s)))
                  ++ (pDupRows m rows).map
                      (fun q => q.map (fun s => stringifyCell (some s)))) := by
  refine ⟨?_, ?_, ?_⟩
  · intro cols pre r1 mid r2 post hk
    show (dedupByKey pInvKey
        ((pre ++ r1 :: (mid ++ r2 :: post)).map (pNormed cols))).map stringifyRow
      = (dedupByKey pInvKey
          ((pre ++ r1 :: (mid ++ post)).map (pNormed cols))).map stringifyRow
    simp only [List.map_append, List.map_cons]
    rw [dedupByKey_drop_dup pInvKey (pre.map (pNormed cols)) (pNormed cols r1)
      (mid.map (pNormed cols)) (pNormed cols r2) (post.map (pNormed cols)) hk]
  · intro cols pre r1 rest hfirst
    show stringifyRow (pNormed cols r1)
      ∈ (dedupByKey pInvKey
          ((pre ++ r1 :: rest).map (pNormed cols))).map stringifyRow
    refine List.mem_map_of_mem stringifyRow ?_
    rw [List.map_append, List.map_cons]
    refine dedupByKey_mem_first pInvKey (pre.map (pNormed cols)) _
      (rest.map (pNormed cols)) ?_
    intro p hp
    obtain ⟨q, hq, rfl⟩ := List.mem_map.mp hp
    exact hfirst q hq
  · intro m rows r tab hr hne hlk
    have hdup : pIsDup m r = true := by
      unfold pIsDup
      rw [hlk]
      simp [hne]
    refine ⟨?_, ?_, ?_⟩
    · unfold pExtend pFoundOn
      rw [if_pos hdup, hlk]
      rfl
    · unfold pDupRows
      exact List.mem_map_of_mem _ (List.mem_filter.mpr ⟨hr, hdup⟩)
    · unfold pFinalRows
      exact List.map_append _ _ _


/-- Witness for C6: the rows with Invoice Numbers "1002.0" and " 1002 "
collapse to the first; the first survives; with "1002" found on tab
"Alina" the surviving row goes to the duplicate list with "Found On" set
to "Alina". -/
theorem C6_plumbing_strip_dedup_foundon_witness :
    pPrepare ⟨PREQUIRED_COLS, pTableEx.rows ++ [pRow2]⟩ = pPrepare pTableEx
      ∧ stringifyRow (pNormed PREQUIRED_COLS pRow2)
        ∈ pPrepare ⟨PREQUIRED_COLS, [pRow2]⟩
      ∧ pExtend [("1002", "Alina")] ["Check", "100", "1002", "100", "d1", "d2", "Bob"]
        = ["Check", "100", "1002", "100", "d1", "d2", "Bob", "Alina"]
      ∧ pExtend [("1002", "Alina")] ["Check", "100", "1002", "100", "d1", "d2", "Bob"]
        ∈ pDupRows [("1002", "Alina")] (pPrepare pTableEx) := by
  have h1 := C6_plumbing_strip_dedup_foundon.1 PREQUIRED_COLS []
    [some "Check", some "100", some "1002.0", some "100", some "0",
     some "Card", some "d1", some "d2", some "Bob"]
    [] pRow2 [] (by decide)
  have h2 := C6_plumbing_strip_dedup_foundon.2.1 PREQUIRED_COLS [] pRow2 []
    (by simp)
  have h3 := C6_plumbing_strip_dedup_foundon.2.2 [("1002", "Alina")]
    (pPrepare pTableEx) ["Check", "100", "1002", "100", "d1", "d2", "Bob"]
    "Alina" (by decide) (by decide) (by decide)
  exact ⟨h1, h2, h3.1, h3.2.1⟩

end ReportAutomation
